import Mathlib

/-!
Verification of the manifest-resolution core of django-vite
(`django_vite/templatetags/django_vite.py`), shallowly embedded in Lean.

Conventions of the embedding:

* The Vite manifest (a JSON object, hence an insertion-ordered mapping with
  unique keys) is an association list `Manifest`; `manifestLookup` is dict
  lookup (first matching key).
* Django settings read by the code are gathered in `ViteSettings`; the
  `staticfiles` storage delegation of `_generate_production_server_url`
  (an external collaborator) is an opaque optional function field.
* Keyword-argument dicts (`**kwargs`) are association lists with unique,
  insertion-ordered keys; `dictInsert`/`dictMerge` implement the Python
  dict-literal semantics `\x7b**defaults, **kwargs\x7d` (an existing key is
  overwritten in place, a new key is appended).
* Python exceptions become the `Except ViteError` monad. The recursive CSS
  walk `_generate_css_files_of_asset` has no termination guarantee in the
  source, so it is embedded with an explicit fuel parameter; exhausting the
  fuel yields `ViteError.outOfFuel`. "The real execution terminates" is
  rendered as "some fuel gives a result other than `outOfFuel`" (results are
  stable under adding fuel, see `walk_fuel_mono`). An unguarded Python dict
  lookup failure (`KeyError`) is `ViteError.keyError`.
* `urllib.parse.urljoin` is modelled by `urljoin` for the inputs the code
  feeds it: no query strings, no fragments, no dot-segments.
-/

namespace DjangoVite

/-- One value of the manifest mapping: the compiled output file of an entry
plus its optional `imports` and `css` sequences. The `file` field is required
in practice (the code reads it unconditionally). -/
structure ManifestEntry where
  file : String
  imports : Option (List String)
  css : Option (List String)
deriving DecidableEq, Repr

/-- The parsed `manifest.json`: an insertion-ordered mapping from logical
asset path to entry. -/
abbrev Manifest := List (String × ManifestEntry)

/-- Python dict lookup on the manifest (first matching key). -/
def manifestLookup : Manifest → String → Option ManifestEntry
  | [], _ => none
  | (k, v) :: rest, p => if k = p then some v else manifestLookup rest p

/-- The Django settings consulted by the template tags. `devServerPort`
holds the decimal rendering of the configured port number (the code
interpolates it into an f-string). `staticfilesStorageUrl` is
`staticfiles_storage.url` when `django.contrib.staticfiles` is installed,
else `none`. -/
structure ViteSettings where
  devMode : Bool
  staticUrl : String
  staticUrlPrefix : String
  devServerProtocol : String
  devServerHost : String
  devServerPort : String
  legacyPolyfillsMotif : String
  staticfilesStorageUrl : Option (String → String)

/-- The error kinds of the code, per the error taxonomy of the spec:
`manifestLoad` models the construction-time RuntimeError of
`_parse_manifest`, `assetNotFound` the missing-entry RuntimeError,
`polyfillNotFound` the missing-polyfill RuntimeError. `keyError` models an
unguarded Python `KeyError` from a raw dict subscript, `indexError` the
unguarded IndexError of the `[-1]` subscript on an empty static URL, and
`outOfFuel` is the fuel-exhaustion marker standing for nontermination of
the recursion. -/
inductive ViteError where
  | manifestLoad (msg : String)
  | assetNotFound (path : String)
  | polyfillNotFound
  | keyError (path : String)
  | indexError
  | outOfFuel
deriving DecidableEq, Repr

/-- The characters Python allows inside a URL scheme. -/
def isSchemeChar (c : Char) : Bool :=
  ('a' ≤ c ∧ c ≤ 'z') ∨ ('A' ≤ c ∧ c ≤ 'Z') ∨ ('0' ≤ c ∧ c ≤ '9') ∨
    c = '+' ∨ c = '-' ∨ c = '.'

/-- Helper of `splitScheme`: scan for the first `':'`, requiring every
character before it to be a scheme character. -/
def splitSchemeAux (acc : List Char) : List Char → Option (List Char × List Char)
  | [] => none
  | c :: rest =>
    if c = ':' then some (acc.reverse, rest)
    else if isSchemeChar c then splitSchemeAux (c :: acc) rest
    else none

/-- Scheme detection of `urllib.parse.urlsplit`: a URL has an explicit
scheme when a `':'` occurs at a positive index and everything before it is
made of scheme characters. Returns the scheme and the remainder after the
colon. (The model keeps the scheme as written; urllib lowercases it, so the
model is faithful for lowercase schemes, which is all the program uses.) -/
def splitScheme (l : List Char) : Option (List Char × List Char) :=
  match l with
  | [] => none
  | c :: _ => if c = ':' then none else splitSchemeAux [] l

/-- Netloc detection of `urllib.parse.urlsplit` for inputs without query or
fragment of their own: after a leading `"//"` the netloc extends up to the
next `'/'`, `'?'` or `'#'`; otherwise there is no netloc. -/
def splitNetloc (l : List Char) : List Char × List Char :=
  if l.take 2 = ['/', '/'] then
    ((l.drop 2).takeWhile (fun c => ¬ (c = '/' ∨ c = '?' ∨ c = '#')),
     (l.drop 2).dropWhile (fun c => ¬ (c = '/' ∨ c = '?' ∨ c = '#')))
  else ([], l)

/-- The characters of a path up to and including the last `'/'` (empty when
there is no slash): the "merge" step of RFC 3986 relative resolution. -/
def dirnameChars (p : List Char) : List Char :=
  (p.reverse.dropWhile (fun c => ¬ c = '/')).reverse

/-- The netloc-and-path part of `urllib.parse.urlunsplit`: a netloc (or a
path opening with `"//"`, which must not be mistaken for one) brings the
`"//"` marker back and roots the path. -/
def unsplitNetlocPath (netloc path : List Char) : List Char :=
  if ¬ netloc = [] ∨ path.take 2 = ['/', '/'] then
    '/' :: '/' :: netloc ++
      (if ¬ path = [] ∧ ¬ path.take 1 = ['/'] then '/' :: path else path)
  else path

/-- `urllib.parse.urlunsplit` restricted to scheme, netloc and path. -/
def unsplitUrl (scheme netloc path : List Char) : List Char :=
  if scheme = [] then unsplitNetlocPath netloc path
  else scheme ++ ':' :: unsplitNetlocPath netloc path

/-- The schemes for which the model implements relative resolution: the
empty scheme and the lowercase web schemes the program can be configured
with. All of them belong to both `uses_relative` and `uses_netloc` of
urllib; for a scheme outside this list the model returns the reference
unchanged, which urllib does only for schemes outside `uses_relative`. -/
def knownRelativeScheme (sch : List Char) : Bool :=
  sch = [] || sch = "http".toList || sch = "https".toList || sch = "ftp".toList ||
    sch = "ws".toList || sch = "wss".toList || sch = "file".toList

/-- Scheme of a URL, with a default for references that have none (urllib
parses the reference with the base scheme as default). -/
def parseScheme (l : List Char) (dflt : List Char) : List Char × List Char :=
  match splitScheme l with
  | some (sch, rest) => (sch, rest)
  | none => (dflt, l)

/-- Models `urllib.parse.urljoin` on the restricted domain the program
feeds it: inputs carry no query string, fragment, dot-segment
(`.` or `..` path segments) or doubled slash inside a merged path, schemes
are lowercase and belong to `knownRelativeScheme`. A reference with a
different scheme wins outright; a reference with its own netloc keeps it;
an empty reference path keeps the base path; a rooted reference path
replaces it; a relative one is appended to the base path with its last
segment dropped. -/
def urljoin (base url : String) : String :=
  if base = "" then url
  else if url = "" then base
  else
    let bp := parseScheme base.toList []
    let bn := splitNetloc bp.2
    let up := parseScheme url.toList bp.1
    let un := splitNetloc up.2
    if ¬ up.1 = bp.1 ∨ ¬ knownRelativeScheme up.1 then url
    else if ¬ un.1 = [] then String.mk (unsplitUrl up.1 un.1 un.2)
    else if un.2 = [] then String.mk (unsplitUrl up.1 bn.1 bn.2)
    else if un.2.take 1 = ['/'] then String.mk (unsplitUrl up.1 bn.1 un.2)
    else if bn.2 = [] then String.mk (unsplitUrl up.1 bn.1 ('/' :: un.2))
    else String.mk (unsplitUrl up.1 bn.1 (dirnameChars bn.2 ++ un.2))

/-- The final character check of `_generate_vite_server_url`: append a
`'/'` unless the string already ends with one. On the empty string the
source subscript `[-1]` raises IndexError, rendered as `none`. -/
def ensureTrailingSlash (s : String) : Option String :=
  match s.toList.getLast? with
  | none => none
  | some c => if c = '/' then some s else some (s ++ "/")

/-- `DjangoViteAssetLoader._generate_vite_server_url`; `none` models the
unguarded IndexError on an empty computed static URL. -/
def generate_vite_server_url (s : ViteSettings) (path : String) : Option String :=
  match ensureTrailingSlash (urljoin s.staticUrl s.staticUrlPrefix) with
  | none => none
  | some staticUrl =>
    some (urljoin
      (s.devServerProtocol ++ "://" ++ s.devServerHost ++ ":" ++ s.devServerPort)
      (urljoin staticUrl path))

/-- `DjangoViteAssetLoader._generate_production_server_url`: delegate to the
staticfiles storage when installed, else plain `urljoin`. -/
def generate_production_server_url (s : ViteSettings) (path : String) : String :=
  match s.staticfilesStorageUrl with
  | some storageUrl => storageUrl (urljoin s.staticUrlPrefix path)
  | none => urljoin s.staticUrlPrefix path

/-- Python dict key-membership test. -/
def dictHasKey : List (String × String) → String → Bool
  | [], _ => false
  | (k', _) :: rest, k => if k' = k then true else dictHasKey rest k

/-- Python dict lookup `d[k]` (first matching key). -/
def dictLookup : List (String × String) → String → Option String
  | [], _ => none
  | (k', v) :: rest, k => if k' = k then some v else dictLookup rest k

/-- Overwrite the value stored at key `k`, keeping its position. -/
def dictReplace : List (String × String) → String → String → List (String × String)
  | [], _, _ => []
  | (k', v') :: rest, k, v =>
    if k' = k then (k, v) :: dictReplace rest k v
    else (k', v') :: dictReplace rest k v

/-- Python dict assignment `d[k] = v`: overwrite in place when the key is
present, append otherwise. -/
def dictInsert (d : List (String × String)) (k v : String) : List (String × String) :=
  if dictHasKey d k then dictReplace d k v else d ++ [(k, v)]

/-- The Python dict literal `\x7b**d, **kw\x7d`. -/
def dictMerge (d kw : List (String × String)) : List (String × String) :=
  kw.foldl (fun acc p => dictInsert acc p.1 p.2) d

/-- `DjangoViteAssetLoader._generate_script_tag`. -/
def generate_script_tag (src : String) (attrs : List (String × String)) : String :=
  let attrsStr := String.intercalate " " (attrs.map fun p => p.1 ++ "=\"" ++ p.2 ++ "\"")
  "<script " ++ attrsStr ++ " src=\"" ++ src ++ "\"></script>"

/-- `DjangoViteAssetLoader._generate_stylesheet_tag`. -/
def generate_stylesheet_tag (href : String) : String :=
  "<link rel=\"stylesheet\" href=\"" ++ href ++ "\" />"

/-- Boolean test that `p` is an initial segment of `l`. -/
def isPrefixChars : List Char → List Char → Bool
  | [], _ => true
  | _ :: _, [] => false
  | a :: as, b :: bs => a = b && isPrefixChars as bs

/-- Boolean test that `sub` occurs contiguously inside `l`. -/
def hasInfixChars (l sub : List Char) : Bool :=
  if isPrefixChars sub l then true
  else
    match l with
    | [] => false
    | _ :: rest => hasInfixChars rest sub

/-- Python substring test `sub in s`. -/
def strContains (s sub : String) : Bool :=
  hasInfixChars s.toList sub.toList

/-- The second loop of `_generate_css_files_of_asset`: walk the `css` list
of the current entry, emitting a stylesheet tag for each path not already
processed, and appending every path (emitted or not) to the
already-processed list, exactly as the source mutates it. -/
def cssOwnFiles (s : ViteSettings) : List String → List String → List String × List String
  | [], already => ([], already)
  | cssPath :: rest, already =>
    let emitted :=
      if cssPath ∈ already then []
      else [generate_stylesheet_tag (generate_production_server_url s cssPath)]
    let tail := cssOwnFiles s rest (already ++ [cssPath])
    (emitted ++ tail.1, tail.2)

/-- The first loop of `_generate_css_files_of_asset`: recurse into
each import path in listed order, threading the already-processed list through
the whole call tree. `walk` is the recursive call at the next smaller
fuel. -/
def cssImportsWalk (walk : String → List String → Except ViteError (List String × List String)) :
    List String → List String → Except ViteError (List String × List String)
  | [], already => .ok ([], already)
  | p :: rest, already =>
    match walk p already with
    | .error e => .error e
    | .ok (tags₁, al₁) =>
      match cssImportsWalk walk rest al₁ with
      | .error e => .error e
      | .ok (tags₂, al₂) => .ok (tags₁ ++ tags₂, al₂)

/-- `DjangoViteAssetLoader._generate_css_files_of_asset`, fuel-indexed.
The raw subscript `self._manifest[path]` is the unguarded lookup: a missing
key is a `keyError`. Imports are walked first (depth-first, in listed
order), then the css list of the entry itself. -/
def generate_css_files_of_asset (s : ViteSettings) (m : Manifest) :
    Nat → String → List String → Except ViteError (List String × List String)
  | 0, _, _ => .error .outOfFuel
  | fuel + 1, path, already =>
    match manifestLookup m path with
    | none => .error (.keyError path)
    | some entry =>
      match cssImportsWalk (generate_css_files_of_asset s m fuel)
          (entry.imports.getD []) already with
      | .error e => .error e
      | .ok (tags₁, al₁) =>
        let own := cssOwnFiles s (entry.css.getD []) al₁
        .ok (tags₁ ++ own.1, own.2)

/-- `DjangoViteAssetLoader.generate_vite_asset`. In dev mode a single
module script tag to the dev server; in production, a membership-guarded
lookup, the CSS walk started with a fresh empty already-processed list, and
the script tag of the entry itself appended, newline-joined. The falsy-dict
half of the source guard `not self._manifest or path not in self._manifest`
is subsumed: lookup in an empty mapping always fails. -/
def generate_vite_asset (s : ViteSettings) (m : Manifest) (fuel : Nat)
    (path : String) (kwargs : List (String × String)) : Except ViteError String :=
  if s.devMode then
    match generate_vite_server_url s path with
    | none => .error .indexError
    | some u => .ok (generate_script_tag u (dictMerge [("type", "module")] kwargs))
  else
    match manifestLookup m path with
    | none => .error (.assetNotFound path)
    | some entry =>
      match generate_css_files_of_asset s m fuel path [] with
      | .error e => .error e
      | .ok (cssTags, _) =>
        .ok (String.intercalate "\n" (cssTags ++
          [generate_script_tag (generate_production_server_url s entry.file)
            (dictMerge [("type", "module"), ("crossorigin", "")] kwargs)]))

/-- `DjangoViteAssetLoader.generate_vite_asset_url`. -/
def generate_vite_asset_url (s : ViteSettings) (m : Manifest) (path : String) :
    Except ViteError String :=
  if s.devMode then
    match generate_vite_server_url s path with
    | none => .error .indexError
    | some u => .ok u
  else
    match manifestLookup m path with
    | none => .error (.assetNotFound path)
    | some entry => .ok (generate_production_server_url s entry.file)

/-- The scan loop of `generate_vite_legacy_polyfills` over the manifest in
iteration order. -/
def legacyPolyfillsScan (s : ViteSettings) (kwargs : List (String × String)) :
    Manifest → Except ViteError String
  | [] => .error .polyfillNotFound
  | (path, entry) :: rest =>
    if strContains path s.legacyPolyfillsMotif then
      .ok (generate_script_tag (generate_production_server_url s entry.file)
        (dictMerge [("nomodule", ""), ("crossorigin", "")] kwargs))
    else legacyPolyfillsScan s kwargs rest

/-- `DjangoViteAssetLoader.generate_vite_legacy_polyfills`. -/
def generate_vite_legacy_polyfills (s : ViteSettings) (m : Manifest)
    (kwargs : List (String × String)) : Except ViteError String :=
  if s.devMode then .ok "" else legacyPolyfillsScan s kwargs m

/-- `DjangoViteAssetLoader.generate_vite_legacy_asset`. -/
def generate_vite_legacy_asset (s : ViteSettings) (m : Manifest)
    (path : String) (kwargs : List (String × String)) : Except ViteError String :=
  if s.devMode then .ok ""
  else
    match manifestLookup m path with
    | none => .error (.assetNotFound path)
    | some entry =>
      .ok (generate_script_tag (generate_production_server_url s entry.file)
        (dictMerge [("nomodule", ""), ("crossorigin", "")] kwargs))

/-- The state the singleton `DjangoViteAssetLoader` retains after
`instance()`: only the parsed manifest (`None` in dev mode). -/
structure DjangoViteAssetLoader where
  manifest : Option Manifest
deriving DecidableEq, Repr

/-- `DjangoViteAssetLoader.instance` composed with `_parse_manifest`,
including the singleton caching of the source: the argument and second
component are the class attribute `_instance` before and after the call.
The outcome of reading and JSON-parsing the manifest file (the one I/O
action) is supplied as `readManifest`. The source assigns
`cls._instance = cls.__new__(cls)` and `_manifest = None` before calling
`_parse_manifest`, so when the parse raises, the call returns no loader but
the partially-initialized instance stays cached, and later calls return it
without reparsing. -/
def loaderInstance (s : ViteSettings) (readManifest : Except String Manifest) :
    Option DjangoViteAssetLoader →
      Except ViteError DjangoViteAssetLoader × Option DjangoViteAssetLoader
  | some L => (.ok L, some L)
  | none =>
    if s.devMode then (.ok { manifest := none }, some { manifest := none })
    else
      match readManifest with
      | .error msg => (.error (.manifestLoad msg), some { manifest := none })
      | .ok m => (.ok { manifest := some m }, some { manifest := some m })

/-- The imports relation of a manifest: `importRel m a b` holds when the
entry at key `a` lists `b` among its imports. -/
def importRel (m : Manifest) (a b : String) : Prop :=
  ∃ e, manifestLookup m a = some e ∧ b ∈ e.imports.getD []

/-- Every key reachable from `p` along `importRel` edges (including `p`
itself) is a key of the manifest. -/
def ClosedFrom (m : Manifest) (p : String) : Prop :=
  ∀ q, Relation.ReflTransGen (importRel m) p q → ∃ e, manifestLookup m q = some e

/-- `p` can reach a cycle of the imports relation. -/
def ReachesCycle (m : Manifest) (p : String) : Prop :=
  ∃ x, Relation.ReflTransGen (importRel m) p x ∧ Relation.TransGen (importRel m) x x

/-- The stylesheet tag emitted for one css path of the manifest. -/
def cssTagOf (s : ViteSettings) (c : String) : String :=
  generate_stylesheet_tag (generate_production_server_url s c)

/-- `generate_vite_asset` called as a method of the loader object: the source
method only reads `self._manifest` and assigns no attribute, so the loader
value is returned unchanged next to the result. A `None` manifest (dev-mode
construction) behaves as the empty mapping for the membership guard. -/
def loaderViteAsset (s : ViteSettings) (L : DjangoViteAssetLoader) (fuel : Nat)
    (path : String) (kwargs : List (String × String)) :
    Except ViteError String × DjangoViteAssetLoader :=
  (generate_vite_asset s (L.manifest.getD []) fuel path kwargs, L)

/-- `generate_vite_asset_url` as a method call on the loader object. -/
def loaderViteAssetUrl (s : ViteSettings) (L : DjangoViteAssetLoader) (path : String) :
    Except ViteError String × DjangoViteAssetLoader :=
  (generate_vite_asset_url s (L.manifest.getD []) path, L)

/-- `generate_vite_legacy_polyfills` as a method call on the loader object. -/
def loaderLegacyPolyfills (s : ViteSettings) (L : DjangoViteAssetLoader)
    (kwargs : List (String × String)) :
    Except ViteError String × DjangoViteAssetLoader :=
  (generate_vite_legacy_polyfills s (L.manifest.getD []) kwargs, L)

/-- `generate_vite_legacy_asset` as a method call on the loader object. -/
def loaderLegacyAsset (s : ViteSettings) (L : DjangoViteAssetLoader)
    (path : String) (kwargs : List (String × String)) :
    Except ViteError String × DjangoViteAssetLoader :=
  (generate_vite_legacy_asset s (L.manifest.getD []) path kwargs, L)

/-- Sample production-mode settings used to instantiate the theorems. -/
def sProdSample : ViteSettings :=
  { devMode := false, staticUrl := "/static/", staticUrlPrefix := "static/"
    devServerProtocol := "http", devServerHost := "localhost", devServerPort := "5173"
    legacyPolyfillsMotif := "legacy-polyfills", staticfilesStorageUrl := none }

/-- Sample dev-mode settings used to instantiate the theorems. -/
def sDevSample : ViteSettings :=
  { devMode := true, staticUrl := "/static/", staticUrlPrefix := ""
    devServerProtocol := "http", devServerHost := "localhost", devServerPort := "5173"
    legacyPolyfillsMotif := "legacy-polyfills", staticfilesStorageUrl := none }

/-- Sample manifest: an entry with one import, both carrying css. -/
def mSample : Manifest :=
  [("main.js", { file := "assets/main-abc.js", imports := some ["shared.js"],
                 css := some ["assets/main.css"] }),
   ("shared.js", { file := "assets/shared.js", imports := none,
                   css := some ["assets/shared.css"] })]

/-- Sample manifest for the css-dedup scenario of the spec: `A` imports `B`
and `C`, and both list the same css file. -/
def mDiamond : Manifest :=
  [("A", { file := "a.js", imports := some ["B", "C"], css := none }),
   ("B", { file := "b.js", imports := none, css := some ["x.css"] }),
   ("C", { file := "c.js", imports := none, css := some ["x.css"] })]

/-- Sample manifest with a present entry whose import is missing. -/
def mMissing : Manifest :=
  [("A", { file := "a.js", imports := some ["B"], css := none })]

/-- Sample manifest where a self-loop is hit before the missing import `M`. -/
def mCycleFirst : Manifest :=
  [("A", { file := "a.js", imports := some ["L", "M"], css := none }),
   ("L", { file := "l.js", imports := some ["L"], css := none })]

/-- Sample manifest where the missing import `M` is hit before the self-loop. -/
def mMissingFirst : Manifest :=
  [("A", { file := "a.js", imports := some ["M", "L"], css := none }),
   ("L", { file := "l.js", imports := some ["L"], css := none })]

/-- Sample manifest for the import-order scenario of the spec: `A` imports
`[B, C]`, each listing one distinct css file, and `A` has css of its own. -/
def mOrder : Manifest :=
  [("A", { file := "a.js", imports := some ["B", "C"], css := some ["a.css"] }),
   ("B", { file := "b.js", imports := none, css := some ["b.css"] }),
   ("C", { file := "c.js", imports := none, css := some ["c.css"] })]

/-- Sample manifest containing a legacy polyfills entry. -/
def mLegacy : Manifest :=
  [("main.js", { file := "assets/main.js", imports := none, css := none }),
   ("vite/legacy-polyfills", { file := "assets/polyfills-legacy.js",
                               imports := none, css := none }),
   ("main-legacy.js", { file := "assets/main-legacy.js", imports := none, css := none })]

theorem walk_zero (s : ViteSettings) (m : Manifest) (p : String) (al : List String) :
    generate_css_files_of_asset s m 0 p al = .error .outOfFuel := rfl

theorem walk_succ (s : ViteSettings) (m : Manifest) (fuel : Nat) (p : String)
    (al : List String) :
    generate_css_files_of_asset s m (fuel + 1) p al =
      match manifestLookup m p with
      | none => .error (.keyError p)
      | some entry =>
        match cssImportsWalk (generate_css_files_of_asset s m fuel)
            (entry.imports.getD []) al with
        | .error e => .error e
        | .ok (tags₁, al₁) =>
          let own := cssOwnFiles s (entry.css.getD []) al₁
          .ok (tags₁ ++ own.1, own.2) := rfl

theorem walk_succ_none (s : ViteSettings) (m : Manifest) (fuel : Nat) (p : String)
    (al : List String) (h : manifestLookup m p = none) :
    generate_css_files_of_asset s m (fuel + 1) p al = .error (.keyError p) := by
  rw [walk_succ, h]

theorem walk_succ_some (s : ViteSettings) (m : Manifest) (fuel : Nat) (p : String)
    (al : List String) (entry : ManifestEntry) (h : manifestLookup m p = some entry) :
    generate_css_files_of_asset s m (fuel + 1) p al =
      match cssImportsWalk (generate_css_files_of_asset s m fuel)
          (entry.imports.getD []) al with
      | .error e => .error e
      | .ok (tags₁, al₁) =>
        .ok (tags₁ ++ (cssOwnFiles s (entry.css.getD []) al₁).1,
             (cssOwnFiles s (entry.css.getD []) al₁).2) := by
  rw [walk_succ, h]

theorem cssOwnFiles_snd (s : ViteSettings) :
    ∀ (cs al : List String), (cssOwnFiles s cs al).2 = al ++ cs := by
  intro cs
  induction cs with
  | nil => intro al; simp [cssOwnFiles]
  | cons c rest ih =>
    intro al
    simp only [cssOwnFiles, ih]
    simp

theorem cssImportsWalk_extend
    (walk : String → List String → Except ViteError (List String × List String))
    (hW : ∀ p al tags al', walk p al = .ok (tags, al') → ∃ d, al' = al ++ d) :
    ∀ ps al tags al', cssImportsWalk walk ps al = .ok (tags, al') → ∃ d, al' = al ++ d := by
  intro ps
  induction ps with
  | nil =>
    intro al tags al' h
    simp only [cssImportsWalk] at h
    cases h
    exact ⟨[], by simp⟩
  | cons p rest ih =>
    intro al tags al' h
    simp only [cssImportsWalk] at h
    split at h
    · cases h
    · rename_i tags₁ al₁ h1
      split at h
      · cases h
      · rename_i tags₂ al₂ h2
        cases h
        obtain ⟨d1, hd1⟩ := hW _ _ _ _ h1
        obtain ⟨d2, hd2⟩ := ih _ _ _ h2
        exact ⟨d1 ++ d2, by rw [hd2, hd1, List.append_assoc]⟩

theorem walk_extend (s : ViteSettings) (m : Manifest) :
    ∀ (fuel : Nat) (p : String) (al tags al' : List String),
      generate_css_files_of_asset s m fuel p al = .ok (tags, al') → ∃ d, al' = al ++ d := by
  intro fuel
  induction fuel with
  | zero => intro p al tags al' h; rw [walk_zero] at h; cases h
  | succ fuel ih =>
    intro p al tags al' h
    cases hm : manifestLookup m p with
    | none => rw [walk_succ_none s m fuel p al hm] at h; cases h
    | some entry =>
      rw [walk_succ_some s m fuel p al entry hm] at h
      split at h
      · cases h
      · rename_i tags₁ al₁ hiw
        cases h
        obtain ⟨d, hd⟩ := cssImportsWalk_extend _ (fun p al tags al' h => ih p al tags al' h)
          _ _ _ _ hiw
        refine ⟨d ++ entry.css.getD [], ?_⟩
        rw [cssOwnFiles_snd, hd, List.append_assoc]

theorem cssOwnFiles_dedup (s : ViteSettings) :
    ∀ (cs al : List String), ∃ ps : List String,
      (cssOwnFiles s cs al).1 = ps.map (cssTagOf s) ∧ ps.Nodup ∧
      (∀ x ∈ ps, x ∉ al) ∧ (∀ x ∈ ps, x ∈ (cssOwnFiles s cs al).2) := by
  intro cs
  induction cs with
  | nil =>
    intro al
    exact ⟨[], by simp [cssOwnFiles]⟩
  | cons c rest ih =>
    intro al
    obtain ⟨ps', hmap, hnd, hdisj, hsub⟩ := ih (al ++ [c])
    by_cases hc : c ∈ al
    · refine ⟨ps', ?_, hnd, ?_, ?_⟩
      · simp only [cssOwnFiles, if_pos hc, List.nil_append]
        exact hmap
      · intro x hx hxal
        exact hdisj x hx (by simp [hxal])
      · intro x hx
        simp only [cssOwnFiles, if_pos hc]
        exact hsub x hx
    · refine ⟨c :: ps', ?_, ?_, ?_, ?_⟩
      · simp only [cssOwnFiles, if_neg hc, List.map_cons]
        simp [cssTagOf]
        exact hmap
      · refine List.Nodup.cons ?_ hnd
        intro hcps
        exact hdisj c hcps (by simp)
      · intro x hx hxal
        rcases List.mem_cons.mp hx with rfl | hx'
        · exact hc hxal
        · exact hdisj x hx' (by simp [hxal])
      · intro x hx
        simp only [cssOwnFiles, if_neg hc]
        rcases List.mem_cons.mp hx with rfl | hx'
        · rw [cssOwnFiles_snd]
          simp
        · exact hsub x hx'

theorem cssImportsWalk_dedup (s : ViteSettings)
    (walk : String → List String → Except ViteError (List String × List String))
    (hExt : ∀ p al tags al', walk p al = .ok (tags, al') → ∃ d, al' = al ++ d)
    (hW : ∀ p al tags al', walk p al = .ok (tags, al') → ∃ ps : List String,
      tags = ps.map (cssTagOf s) ∧ ps.Nodup ∧ (∀ x ∈ ps, x ∉ al) ∧ (∀ x ∈ ps, x ∈ al')) :
    ∀ qs al tags al', cssImportsWalk walk qs al = .ok (tags, al') → ∃ ps : List String,
      tags = ps.map (cssTagOf s) ∧ ps.Nodup ∧ (∀ x ∈ ps, x ∉ al) ∧ (∀ x ∈ ps, x ∈ al') := by
  intro qs
  induction qs with
  | nil =>
    intro al tags al' h
    simp only [cssImportsWalk] at h
    cases h
    exact ⟨[], by simp⟩
  | cons p rest ih =>
    intro al tags al' h
    simp only [cssImportsWalk] at h
    split at h
    · cases h
    · rename_i tags₁ al₁ h1
      split at h
      · cases h
      · rename_i tags₂ al₂ h2
        cases h
        obtain ⟨ps1, hmap1, hnd1, hdisj1, hsub1⟩ := hW _ _ _ _ h1
        obtain ⟨ps2, hmap2, hnd2, hdisj2, hsub2⟩ := ih _ _ _ h2
        obtain ⟨d2, hd2⟩ := cssImportsWalk_extend walk hExt _ _ _ _ h2
        refine ⟨ps1 ++ ps2, ?_, ?_, ?_, ?_⟩
        · rw [List.map_append, hmap1, hmap2]
        · refine List.Nodup.append hnd1 hnd2 ?_
          intro x hx1 hx2
          exact hdisj2 x hx2 (hsub1 x hx1)
        · intro x hx hxal
          rcases List.mem_append.mp hx with hx' | hx'
          · exact hdisj1 x hx' hxal
          · obtain ⟨d1, hd1⟩ := hExt _ _ _ _ h1
            exact hdisj2 x hx' (by rw [hd1]; exact List.mem_append_left _ hxal)
        · intro x hx
          rcases List.mem_append.mp hx with hx' | hx'
          · rw [hd2]; exact List.mem_append_left _ (hsub1 x hx')
          · exact hsub2 x hx'

theorem walk_dedup (s : ViteSettings) (m : Manifest) :
    ∀ (fuel : Nat) (p : String) (al tags al' : List String),
      generate_css_files_of_asset s m fuel p al = .ok (tags, al') → ∃ ps : List String,
      tags = ps.map (cssTagOf s) ∧ ps.Nodup ∧ (∀ x ∈ ps, x ∉ al) ∧ (∀ x ∈ ps, x ∈ al') := by
  intro fuel
  induction fuel with
  | zero => intro p al tags al' h; rw [walk_zero] at h; cases h
  | succ fuel ih =>
    intro p al tags al' h
    cases hm : manifestLookup m p with
    | none => rw [walk_succ_none s m fuel p al hm] at h; cases h
    | some entry =>
      rw [walk_succ_some s m fuel p al entry hm] at h
      split at h
      · cases h
      · rename_i tags₁ al₁ hiw
        cases h
        have hExt := fun p al tags al' h => walk_extend s m fuel p al tags al' h
        obtain ⟨ps1, hmap1, hnd1, hdisj1, hsub1⟩ :=
          cssImportsWalk_dedup s _ hExt (fun p al tags al' h => ih p al tags al' h)
            _ _ _ _ hiw
        obtain ⟨ps2, hmap2, hnd2, hdisj2, hsub2⟩ :=
          cssOwnFiles_dedup s (entry.css.getD []) al₁
        refine ⟨ps1 ++ ps2, ?_, ?_, ?_, ?_⟩
        · rw [List.map_append, hmap1, hmap2]
        · refine List.Nodup.append hnd1 hnd2 ?_
          intro x hx1 hx2
          exact hdisj2 x hx2 (hsub1 x hx1)
        · intro x hx hxal
          rcases List.mem_append.mp hx with hx' | hx'
          · exact hdisj1 x hx' hxal
          · obtain ⟨d1, hd1⟩ := cssImportsWalk_extend _ hExt _ _ _ _ hiw
            exact hdisj2 x hx' (by rw [hd1]; exact List.mem_append_left _ hxal)
        · intro x hx
          rcases List.mem_append.mp hx with hx' | hx'
          · rw [cssOwnFiles_snd]
            exact List.mem_append_left _ (hsub1 x hx')
          · exact hsub2 x hx'

theorem cssImportsWalk_errors
    (walk : String → List String → Except ViteError (List String × List String))
    (hW : ∀ p al e, walk p al = .error e → e = .outOfFuel ∨ ∃ q, e = .keyError q) :
    ∀ qs al e, cssImportsWalk walk qs al = .error e →
      e = .outOfFuel ∨ ∃ q, e = .keyError q := by
  intro qs
  induction qs with
  | nil => intro al e h; simp only [cssImportsWalk] at h; cases h
  | cons p rest ih =>
    intro al e h
    simp only [cssImportsWalk] at h
    split at h
    · rename_i e' h1
      cases h
      exact hW _ _ _ h1
    · rename_i tags₁ al₁ h1
      split at h
      · rename_i e' h2
        cases h
        exact ih _ _ h2
      · cases h

theorem walk_errors (s : ViteSettings) (m : Manifest) :
    ∀ (fuel : Nat) (p : String) (al : List String) (e : ViteError),
      generate_css_files_of_asset s m fuel p al = .error e →
      e = .outOfFuel ∨ ∃ q, e = .keyError q := by
  intro fuel
  induction fuel with
  | zero =>
    intro p al e h
    rw [walk_zero] at h
    cases h
    exact Or.inl rfl
  | succ fuel ih =>
    intro p al e h
    cases hm : manifestLookup m p with
    | none =>
      rw [walk_succ_none s m fuel p al hm] at h
      cases h
      exact Or.inr ⟨p, rfl⟩
    | some entry =>
      rw [walk_succ_some s m fuel p al entry hm] at h
      split at h
      · rename_i e' hiw
        cases h
        exact cssImportsWalk_errors _ (fun p al e h => ih p al e h) _ _ _ hiw
      · cases h

theorem walk_ok_lookup (s : ViteSettings) (m : Manifest) (fuel : Nat) (p : String)
    (al : List String) (v : List String × List String)
    (h : generate_css_files_of_asset s m fuel p al = .ok v) :
    ∃ e, manifestLookup m p = some e := by
  cases fuel with
  | zero => rw [walk_zero] at h; cases h
  | succ fuel =>
    cases hm : manifestLookup m p with
    | none => rw [walk_succ_none s m fuel p al hm] at h; cases h
    | some entry => exact ⟨entry, rfl⟩

theorem cssImportsWalk_oof
    (walk : String → List String → Except ViteError (List String × List String)) :
    ∀ qs al, cssImportsWalk walk qs al = .error .outOfFuel →
      ∃ q ∈ qs, ∃ al', walk q al' = .error .outOfFuel := by
  intro qs
  induction qs with
  | nil => intro al h; simp only [cssImportsWalk] at h; cases h
  | cons p rest ih =>
    intro al h
    simp only [cssImportsWalk] at h
    split at h
    · rename_i e' h1
      cases h
      exact ⟨p, List.mem_cons_self _ _, al, h1⟩
    · rename_i tags₁ al₁ h1
      split at h
      · rename_i e' h2
        cases h
        obtain ⟨q, hq, al', hal'⟩ := ih _ h2
        exact ⟨q, List.mem_cons_of_mem _ hq, al', hal'⟩
      · cases h

theorem cssImportsWalk_mono
    (walk walk' : String → List String → Except ViteError (List String × List String))
    (h : ∀ p al r, walk p al = r → r ≠ .error .outOfFuel → walk' p al = r) :
    ∀ qs al r, cssImportsWalk walk qs al = r → r ≠ .error .outOfFuel →
      cssImportsWalk walk' qs al = r := by
  intro qs
  induction qs with
  | nil => intro al r hr _; simpa [cssImportsWalk] using hr
  | cons p rest ih =>
    intro al r hr hne
    simp only [cssImportsWalk] at hr ⊢
    split at hr
    · rename_i e' h1
      subst hr
      rw [h _ _ _ h1 hne]
    · rename_i tags₁ al₁ h1
      rw [h _ _ _ h1 (by simp)]
      split at hr
      · rename_i e' h2
        subst hr
        rw [ih _ _ h2 hne]
      · rename_i tags₂ al₂ h2
        rw [ih _ _ h2 (by simp)]
        exact hr

theorem walk_fuel_mono (s : ViteSettings) (m : Manifest) :
    ∀ (fuel fuel' : Nat), fuel ≤ fuel' →
      ∀ (p : String) (al : List String) (r : Except ViteError (List String × List String)),
      generate_css_files_of_asset s m fuel p al = r → r ≠ .error .outOfFuel →
      generate_css_files_of_asset s m fuel' p al = r := by
  intro fuel
  induction fuel with
  | zero =>
    intro fuel' _ p al r hr hne
    rw [walk_zero] at hr
    exact absurd hr.symm (by simpa using hne)
  | succ fuel ih =>
    intro fuel' hle p al r hr hne
    obtain ⟨f', rfl⟩ : ∃ f', fuel' = f' + 1 :=
      ⟨fuel' - 1, by omega⟩
    have hle' : fuel ≤ f' := by omega
    cases hm : manifestLookup m p with
    | none =>
      rw [walk_succ_none s m fuel p al hm] at hr
      rw [walk_succ_none s m f' p al hm]
      exact hr
    | some entry =>
      rw [walk_succ_some s m fuel p al entry hm] at hr
      rw [walk_succ_some s m f' p al entry hm]
      split at hr
      · rename_i e' hiw
        subst hr
        rw [cssImportsWalk_mono _ _ (fun p al r h hn => ih f' hle' p al r h hn)
          _ _ _ hiw hne]
      · rename_i tags₁ al₁ hiw
        rw [cssImportsWalk_mono _ _ (fun p al r h hn => ih f' hle' p al r h hn)
          _ _ _ hiw (by simp)]
        exact hr

theorem closedFrom_of_edge (m : Manifest) (p q : String) (hcl : ClosedFrom m p)
    (hpq : importRel m p q) : ClosedFrom m q := by
  intro y hy
  exact hcl y (Relation.ReflTransGen.head hpq hy)

theorem cssImportsWalk_no_keyError
    (walk : String → List String → Except ViteError (List String × List String))
    (qs : List String)
    (h : ∀ x ∈ qs, ∀ al q, walk x al ≠ .error (.keyError q)) :
    ∀ al q, cssImportsWalk walk qs al ≠ .error (.keyError q) := by
  induction qs with
  | nil =>
    intro al q hcon
    simp only [cssImportsWalk] at hcon
    exact Except.noConfusion hcon
  | cons p rest ih =>
    intro al q hcon
    simp only [cssImportsWalk] at hcon
    split at hcon
    · rename_i e' h1
      cases hcon
      exact h p (List.mem_cons_self _ _) al q h1
    · rename_i tags₁ al₁ h1
      split at hcon
      · rename_i e' h2
        cases hcon
        exact ih (fun x hx => h x (List.mem_cons_of_mem _ hx)) al₁ q h2
      · cases hcon

theorem walk_no_keyError (s : ViteSettings) (m : Manifest) :
    ∀ (fuel : Nat) (p : String), ClosedFrom m p →
      ∀ (al : List String) (q : String),
      generate_css_files_of_asset s m fuel p al ≠ .error (.keyError q) := by
  intro fuel
  induction fuel with
  | zero => intro p _ al q hcon; rw [walk_zero] at hcon; cases hcon
  | succ fuel ih =>
    intro p hcl al q hcon
    obtain ⟨entry, hm⟩ := hcl p Relation.ReflTransGen.refl
    rw [walk_succ_some s m fuel p al entry hm] at hcon
    split at hcon
    · rename_i e' hiw
      cases hcon
      refine cssImportsWalk_no_keyError _ (entry.imports.getD []) ?_ al q hiw
      intro x hx al' q'
      exact ih x (closedFrom_of_edge m p x hcl ⟨entry, hm, hx⟩) al' q'
    · cases hcon

theorem reachesCycle_step (m : Manifest) (p : String) (h : ReachesCycle m p) :
    ∃ q, importRel m p q ∧ ReachesCycle m q := by
  obtain ⟨x, hpx, hxx⟩ := h
  rcases Relation.ReflTransGen.cases_head hpx with rfl | ⟨c, hpc, hcx⟩
  · obtain ⟨c, hpc, hcp⟩ := Relation.TransGen.head'_iff.mp hxx
    exact ⟨c, hpc, p, hcp, hxx⟩
  · exact ⟨c, hpc, x, hcx, hxx⟩

theorem cssImportsWalk_nonterm (s : ViteSettings) (m : Manifest) (fuel : Nat)
    (q : String) (hq : ∀ al, generate_css_files_of_asset s m fuel q al = .error .outOfFuel) :
    ∀ qs, q ∈ qs →
      (∀ x ∈ qs, ∀ al q', generate_css_files_of_asset s m fuel x al ≠ .error (.keyError q')) →
      ∀ al, cssImportsWalk (generate_css_files_of_asset s m fuel) qs al = .error .outOfFuel := by
  intro qs
  induction qs with
  | nil => intro hmem; cases hmem
  | cons p rest ih =>
    intro hmem hnk al
    rcases List.mem_cons.mp hmem with rfl | hmem'
    · simp [cssImportsWalk, hq al]
    · cases h1 : generate_css_files_of_asset s m fuel p al with
      | error e =>
        rcases walk_errors s m fuel p al e h1 with rfl | ⟨y, rfl⟩
        · simp [cssImportsWalk, h1]
        · exact absurd h1 (hnk p (List.mem_cons_self _ _) al y)
      | ok v =>
        obtain ⟨tags₁, al₁⟩ := v
        have h2 := ih hmem' (fun x hx => hnk x (List.mem_cons_of_mem _ hx)) al₁
        simp [cssImportsWalk, h1, h2]

theorem walk_nonterm (s : ViteSettings) (m : Manifest) :
    ∀ (fuel : Nat) (p : String), ClosedFrom m p → ReachesCycle m p →
      ∀ al, generate_css_files_of_asset s m fuel p al = .error .outOfFuel := by
  intro fuel
  induction fuel with
  | zero => intro p _ _ al; rw [walk_zero]
  | succ fuel ih =>
    intro p hcl hrc al
    obtain ⟨q, hpq, hrcq⟩ := reachesCycle_step m p hrc
    obtain ⟨entry, hm, hqmem⟩ := hpq
    rw [walk_succ_some s m fuel p al entry hm]
    have hq : ∀ al', generate_css_files_of_asset s m fuel q al' = .error .outOfFuel :=
      ih q (closedFrom_of_edge m p q hcl ⟨entry, hm, hqmem⟩) hrcq
    have hnk : ∀ x ∈ entry.imports.getD [], ∀ al' q',
        generate_css_files_of_asset s m fuel x al' ≠ .error (.keyError q') := by
      intro x hx al' q'
      exact walk_no_keyError s m fuel x (closedFrom_of_edge m p x hcl ⟨entry, hm, hx⟩) al' q'
    rw [cssImportsWalk_nonterm s m fuel q hq (entry.imports.getD []) hqmem hnk al]

theorem mem_keys_of_lookup (m : Manifest) (p : String) (e : ManifestEntry)
    (h : manifestLookup m p = some e) : p ∈ m.map Prod.fst := by
  induction m with
  | nil => cases h
  | cons kv rest ih =>
    obtain ⟨k, v⟩ := kv
    simp only [manifestLookup] at h
    by_cases hk : k = p
    · simp [hk]
    · rw [if_neg hk] at h
      exact List.mem_cons_of_mem _ (ih h)

theorem lookup_of_mem_keys (m : Manifest) (p : String) (h : p ∈ m.map Prod.fst) :
    ∃ e, manifestLookup m p = some e := by
  induction m with
  | nil => cases h
  | cons kv rest ih =>
    obtain ⟨k, v⟩ := kv
    by_cases hk : k = p
    · exact ⟨v, by simp [manifestLookup, hk]⟩
    · rcases List.mem_cons.mp h with hh | hh
      · exact absurd hh.symm (by simpa using hk)
      · obtain ⟨e, he⟩ := ih hh
        exact ⟨e, by simp [manifestLookup, hk, he]⟩

/-- The manifest import relation contains no cycle. -/
def Acyclic (m : Manifest) : Prop :=
  ∀ x, ¬ Relation.TransGen (importRel m) x x

theorem fuel_for_list (s : ViteSettings) (m : Manifest) :
    ∀ qs : List String,
      (∀ q ∈ qs, ∃ f, ∀ al, generate_css_files_of_asset s m f q al ≠ .error .outOfFuel) →
      ∃ F, ∀ q ∈ qs, ∀ al, generate_css_files_of_asset s m F q al ≠ .error .outOfFuel := by
  intro qs
  induction qs with
  | nil => intro _; exact ⟨0, by intro q hq; cases hq⟩
  | cons p rest ih =>
    intro h
    obtain ⟨fp, hfp⟩ := h p (List.mem_cons_self _ _)
    obtain ⟨F, hF⟩ := ih (fun q hq => h q (List.mem_cons_of_mem _ hq))
    refine ⟨max fp F, ?_⟩
    intro q hq al
    rcases List.mem_cons.mp hq with rfl | hq'
    · rw [walk_fuel_mono s m fp (max fp F) (le_max_left _ _) q al _ rfl (hfp al)]
      exact hfp al
    · rw [walk_fuel_mono s m F (max fp F) (le_max_right _ _) q al _ rfl (hF q hq' al)]
      exact hF q hq' al

theorem walk_terminates (s : ViteSettings) (m : Manifest) (hacyc : Acyclic m) :
    ∀ p, ∃ fuel, ∀ al, generate_css_files_of_asset s m fuel p al ≠ .error .outOfFuel := by
  have hnonkey : ∀ p, p ∉ m.map Prod.fst →
      ∃ fuel, ∀ al, generate_css_files_of_asset s m fuel p al ≠ .error .outOfFuel := by
    intro p hp
    refine ⟨1, fun al => ?_⟩
    cases hm : manifestLookup m p with
    | none => rw [walk_succ_none s m 0 p al hm]; simp
    | some e => exact absurd (mem_keys_of_lookup m p e hm) hp
  have hfin : Finite {x : String // x ∈ m.map Prod.fst} :=
    (List.finite_toSet (m.map Prod.fst)).to_subtype
  set D : {x : String // x ∈ m.map Prod.fst} → {x : String // x ∈ m.map Prod.fst} → Prop :=
    fun a b => importRel m b.val a.val with hD
  have htrans : IsTrans _ (Relation.TransGen D) := ⟨fun _ _ _ hab hbc => hab.trans hbc⟩
  have hirr : IsIrrefl _ (Relation.TransGen D) := by
    refine ⟨fun a ha => ?_⟩
    have : Relation.TransGen (Function.swap (importRel m)) a.val a.val :=
      Relation.TransGen.lift Subtype.val (fun x y h => h) ha
    exact hacyc a.val (Relation.transGen_swap.mp this)
  have hwfT : WellFounded (Relation.TransGen D) :=
    Finite.wellFounded_of_trans_of_irrefl _
  have hwf : WellFounded D := Subrelation.wf (fun h => Relation.TransGen.single h) hwfT
  have hkey : ∀ x : {x : String // x ∈ m.map Prod.fst},
      ∃ fuel, ∀ al, generate_css_files_of_asset s m fuel x.val al ≠ .error .outOfFuel := by
    intro x0
    refine hwf.induction (C := fun x => ∃ fuel, ∀ al,
      generate_css_files_of_asset s m fuel x.val al ≠ .error .outOfFuel) x0 ?_
    intro x IH
    obtain ⟨entry, hm⟩ := lookup_of_mem_keys m x.val x.2
    have himps : ∀ q ∈ entry.imports.getD [],
        ∃ f, ∀ al, generate_css_files_of_asset s m f q al ≠ .error .outOfFuel := by
      intro q hq
      by_cases hqk : q ∈ m.map Prod.fst
      · exact IH ⟨q, hqk⟩ ⟨entry, hm, hq⟩
      · exact hnonkey q hqk
    obtain ⟨F, hF⟩ := fuel_for_list s m (entry.imports.getD []) himps
    refine ⟨F + 1, fun al => ?_⟩
    rw [walk_succ_some s m F x.val al entry hm]
    split
    · rename_i e' hiw
      intro hcon
      cases hcon
      obtain ⟨q, hq, al', hal'⟩ := cssImportsWalk_oof _ _ _ hiw
      exact hF q hq al' hal'
    · simp
  intro p
  by_cases hp : p ∈ m.map Prod.fst
  · exact hkey ⟨p, hp⟩
  · exact hnonkey p hp

theorem cssImportsWalk_ok_mem
    (walk : String → List String → Except ViteError (List String × List String)) :
    ∀ qs al v, cssImportsWalk walk qs al = .ok v →
      ∀ x ∈ qs, ∃ alx vx, walk x alx = .ok vx := by
  intro qs
  induction qs with
  | nil => intro al v _ x hx; cases hx
  | cons p rest ih =>
    intro al v h x hx
    simp only [cssImportsWalk] at h
    split at h
    · cases h
    · rename_i tags₁ al₁ h1
      split at h
      · cases h
      · rename_i tags₂ al₂ h2
        rcases List.mem_cons.mp hx with rfl | hx'
        · exact ⟨al, _, h1⟩
        · exact ih _ _ h2 x hx'

theorem walk_ok_reachable (s : ViteSettings) (m : Manifest) :
    ∀ (fuel : Nat) (p : String) (al : List String) (v : List String × List String),
      generate_css_files_of_asset s m fuel p al = .ok v →
      ∀ q, Relation.TransGen (importRel m) p q → ∃ e, manifestLookup m q = some e := by
  intro fuel
  induction fuel with
  | zero => intro p al v h; rw [walk_zero] at h; cases h
  | succ fuel ih =>
    intro p al v h q hpq
    cases hm : manifestLookup m p with
    | none => rw [walk_succ_none s m fuel p al hm] at h; cases h
    | some entry =>
      rw [walk_succ_some s m fuel p al entry hm] at h
      split at h
      · cases h
      · rename_i tags₁ al₁ hiw
        obtain ⟨c, hpc, hcq⟩ := Relation.TransGen.head'_iff.mp hpq
        obtain ⟨e', he', hcmem⟩ := hpc
        rw [hm] at he'
        cases he'
        obtain ⟨alc, vc, hvc⟩ := cssImportsWalk_ok_mem _ _ _ _ hiw c hcmem
        rcases Relation.reflTransGen_iff_eq_or_transGen.mp hcq with rfl | hcq'
        · exact walk_ok_lookup s m fuel _ alc vc hvc
        · exact ih c alc vc hvc q hcq'

theorem dictHasKey_false_lookup (d : List (String × String)) (k : String)
    (h : dictHasKey d k = false) : dictLookup d k = none := by
  induction d with
  | nil => rfl
  | cons p rest ih =>
    obtain ⟨k', v⟩ := p
    simp only [dictHasKey] at h
    simp only [dictLookup]
    by_cases hk : k' = k
    · rw [if_pos hk] at h; cases h
    · rw [if_neg hk] at h ⊢
      exact ih h

theorem dictLookup_append_left (d d' : List (String × String)) (k : String)
    (h : dictLookup d k = none) : dictLookup (d ++ d') k = dictLookup d' k := by
  induction d with
  | nil => rfl
  | cons p rest ih =>
    obtain ⟨k', v⟩ := p
    simp only [dictLookup] at h ⊢
    by_cases hk : k' = k
    · rw [if_pos hk] at h; cases h
    · rw [if_neg hk] at h ⊢
      exact ih h

theorem dictReplace_lookup_self (d : List (String × String)) (k v : String)
    (h : dictHasKey d k = true) : dictLookup (dictReplace d k v) k = some v := by
  induction d with
  | nil => cases h
  | cons p rest ih =>
    obtain ⟨k', v'⟩ := p
    simp only [dictHasKey] at h
    by_cases hk : k' = k
    · simp [dictReplace, hk, dictLookup]
    · rw [if_neg hk] at h
      simp [dictReplace, hk, dictLookup, ih h]

theorem dictReplace_lookup_ne (d : List (String × String)) (k v k' : String)
    (h : k' ≠ k) : dictLookup (dictReplace d k v) k' = dictLookup d k' := by
  induction d with
  | nil => rfl
  | cons p rest ih =>
    obtain ⟨ka, va⟩ := p
    by_cases hka : ka = k
    · subst hka
      simp only [dictReplace, if_pos rfl, dictLookup]
      rw [if_neg (fun hc : ka = k' => h hc.symm), if_neg (fun hc : ka = k' => h hc.symm)]
      exact ih
    · simp only [dictReplace, if_neg hka, dictLookup]
      by_cases hka' : ka = k'
      · rw [if_pos hka', if_pos hka']
      · rw [if_neg hka', if_neg hka']
        exact ih

theorem dictLookup_append_single_ne (d : List (String × String)) (k v k' : String)
    (h : k' ≠ k) : dictLookup (d ++ [(k, v)]) k' = dictLookup d k' := by
  induction d with
  | nil =>
    simp only [List.nil_append, dictLookup]
    rw [if_neg (fun hc : k = k' => h hc.symm)]
  | cons p rest ih =>
    obtain ⟨ka, va⟩ := p
    simp only [List.cons_append, List.append_eq, dictLookup]
    rw [ih]

theorem dictInsert_lookup_self (d : List (String × String)) (k v : String) :
    dictLookup (dictInsert d k v) k = some v := by
  unfold dictInsert
  cases hhk : dictHasKey d k with
  | false =>
    rw [if_neg (by simp [hhk])]
    rw [dictLookup_append_left d _ k (dictHasKey_false_lookup d k hhk)]
    simp [dictLookup]
  | true =>
    rw [if_pos (by simp [hhk])]
    exact dictReplace_lookup_self d k v hhk

theorem dictInsert_lookup_ne (d : List (String × String)) (k v k' : String)
    (h : k' ≠ k) : dictLookup (dictInsert d k v) k' = dictLookup d k' := by
  unfold dictInsert
  split
  · exact dictReplace_lookup_ne d k v k' h
  · exact dictLookup_append_single_ne d k v k' h

theorem dictLookup_none_of_not_mem (d : List (String × String)) (k : String)
    (h : k ∉ d.map Prod.fst) : dictLookup d k = none := by
  induction d with
  | nil => rfl
  | cons p rest ih =>
    obtain ⟨k', v⟩ := p
    simp only [List.map_cons, List.mem_cons] at h
    push_neg at h
    simp only [dictLookup]
    rw [if_neg (fun hc => h.1 hc.symm)]
    exact ih h.2

theorem dictMerge_lookup (kw : List (String × String)) (hnd : (kw.map Prod.fst).Nodup) :
    ∀ (d : List (String × String)) (k : String),
      dictLookup (dictMerge d kw) k =
        match dictLookup kw k with
        | some v => some v
        | none => dictLookup d k := by
  induction kw with
  | nil => intro d k; rfl
  | cons p kw' ih =>
    obtain ⟨k0, v0⟩ := p
    simp only [List.map_cons, List.nodup_cons] at hnd
    intro d k
    have hstep : dictMerge d ((k0, v0) :: kw') = dictMerge (dictInsert d k0 v0) kw' := rfl
    rw [hstep, ih hnd.2]
    by_cases hk : k0 = k
    · subst hk
      rw [dictLookup_none_of_not_mem kw' k0 hnd.1]
      simp [dictLookup, dictInsert_lookup_self]
    · simp only [dictLookup]
      rw [if_neg hk]
      cases hkw : dictLookup kw' k with
      | some v => rfl
      | none => exact dictInsert_lookup_ne d k0 v0 k (fun hc => hk hc.symm)

theorem dropWhile_nil_of_takeWhile_self (p : Char → Bool) (l : List Char)
    (h : l.takeWhile p = l) : l.dropWhile p = [] := by
  have h2 := List.takeWhile_append_dropWhile p l
  rw [h] at h2
  exact List.append_cancel_left (h2.trans (List.append_nil l).symm)

theorem legacyPolyfillsScan_eq_find (s : ViteSettings) (kwargs : List (String × String)) :
    ∀ m : Manifest, legacyPolyfillsScan s kwargs m =
      match m.find? (fun kv => strContains kv.1 s.legacyPolyfillsMotif) with
      | some kv => .ok (generate_script_tag (generate_production_server_url s kv.2.file)
          (dictMerge [("nomodule", ""), ("crossorigin", "")] kwargs))
      | none => .error .polyfillNotFound := by
  intro m
  induction m with
  | nil => rfl
  | cons kv rest ih =>
    obtain ⟨k, e⟩ := kv
    cases hpred : strContains k s.legacyPolyfillsMotif with
    | true =>
      rw [List.find?_cons_of_pos _ (by simpa using hpred)]
      simp [legacyPolyfillsScan, hpred]
    | false =>
      rw [List.find?_cons_of_neg _ (by simpa using hpred)]
      simp only [legacyPolyfillsScan]
      rw [if_neg (by simp [hpred])]
      exact ih

/-- C1: in ProductionMode, for a manifest entry present at the requested
path (and a CSS walk that completes), `generate_vite_asset` returns the CSS
link tags followed by exactly one script tag, newline-joined; the script
src is the production URL of the entry output file, and its attributes are
`type=module, crossorigin=` merged with the caller attributes, the caller
winning on key collision (third conjunct). -/
theorem c1_production_entry_tags (s : ViteSettings) (m : Manifest) (fuel : Nat)
    (path : String) (kwargs : List (String × String)) (e : ManifestEntry)
    (cssTags al : List String)
    (hdev : s.devMode = false)
    (hm : manifestLookup m path = some e)
    (hw : generate_css_files_of_asset s m fuel path [] = .ok (cssTags, al))
    (hnd : (kwargs.map Prod.fst).Nodup) :
    generate_vite_asset s m fuel path kwargs =
      .ok (String.intercalate "\n" (cssTags ++
        [generate_script_tag (generate_production_server_url s e.file)
          (dictMerge [("type", "module"), ("crossorigin", "")] kwargs)])) ∧
    (∀ t ∈ cssTags, ∃ href, t = generate_stylesheet_tag href) ∧
    (∀ k, dictLookup (dictMerge [("type", "module"), ("crossorigin", "")] kwargs) k =
      match dictLookup kwargs k with
      | some v => some v
      | none => dictLookup [("type", "module"), ("crossorigin", "")] k) := by
  refine ⟨?_, ?_, ?_⟩
  · simp [generate_vite_asset, hdev, hm, hw]
  · intro t ht
    obtain ⟨ps, hmap, _, _, _⟩ := walk_dedup s m fuel path [] cssTags al hw
    rw [hmap] at ht
    obtain ⟨cpath, _, rfl⟩ := List.mem_map.mp ht
    exact ⟨generate_production_server_url s cpath, rfl⟩
  · intro k
    exact dictMerge_lookup kwargs hnd _ k

/-- C1 witness at `mSample`. -/
theorem c1_production_entry_tags_witness :
    generate_vite_asset sProdSample mSample 3 "main.js" [("defer", "")] =
      .ok (String.intercalate "\n"
        ([generate_stylesheet_tag "static/assets/shared.css",
          generate_stylesheet_tag "static/assets/main.css"] ++
        [generate_script_tag (generate_production_server_url sProdSample "assets/main-abc.js")
          (dictMerge [("type", "module"), ("crossorigin", "")] [("defer", "")])])) ∧
    (∀ t ∈ [generate_stylesheet_tag "static/assets/shared.css",
            generate_stylesheet_tag "static/assets/main.css"],
      ∃ href, t = generate_stylesheet_tag href) ∧
    (∀ k, dictLookup (dictMerge [("type", "module"), ("crossorigin", "")] [("defer", "")]) k =
      match dictLookup [("defer", "")] k with
      | some v => some v
      | none => dictLookup [("type", "module"), ("crossorigin", "")] k) :=
  c1_production_entry_tags sProdSample mSample 3 "main.js" [("defer", "")]
    { file := "assets/main-abc.js", imports := some ["shared.js"],
      css := some ["assets/main.css"] }
    [generate_stylesheet_tag "static/assets/shared.css",
     generate_stylesheet_tag "static/assets/main.css"]
    ["assets/shared.css", "assets/main.css"]
    rfl rfl (by rfl) (by simp)

/-- C2: within one `generate_css_files_of_asset` call started with a fresh
already-processed list, the emitted link tags come from pairwise-distinct
css paths: no css path is emitted twice, however many import edges reach
it. -/
theorem c2_css_dedup (s : ViteSettings) (m : Manifest) (fuel : Nat) (p : String)
    (cssTags al : List String)
    (hw : generate_css_files_of_asset s m fuel p [] = .ok (cssTags, al)) :
    ∃ ps : List String, cssTags = ps.map (cssTagOf s) ∧ ps.Nodup := by
  obtain ⟨ps, hmap, hnd, _, _⟩ := walk_dedup s m fuel p [] cssTags al hw
  exact ⟨ps, hmap, hnd⟩

/-- C2 witness at `mDiamond`: `A` imports `B` and `C`, both listing
`x.css`; a single link tag is emitted. -/
theorem c2_css_dedup_witness :
    ∃ ps : List String,
      [cssTagOf sProdSample "x.css"] = ps.map (cssTagOf sProdSample) ∧ ps.Nodup :=
  c2_css_dedup sProdSample mDiamond 3 "A"
    [cssTagOf sProdSample "x.css"] ["x.css", "x.css"] (by rfl)

/-- C3: the CSS walk is a depth-first pre-order traversal: for an entry `A`
with imports `[B, C]` where `B` lists css `[b]` and `C` lists css `[c]`,
the emitted order is the tag of `b`, then that of `c`, then the tags of the
css entries of `A` itself (deduplicated against the set seen so far). -/
theorem c3_css_import_order (s : ViteSettings) (m : Manifest) (fl : Nat)
    (pA pB pC : String) (eA eB eC : ManifestEntry) (b c : String)
    (hA : manifestLookup m pA = some eA) (hAimp : eA.imports.getD [] = [pB, pC])
    (hB : manifestLookup m pB = some eB) (hBimp : eB.imports.getD [] = [])
    (hBcss : eB.css.getD [] = [b])
    (hC : manifestLookup m pC = some eC) (hCimp : eC.imports.getD [] = [])
    (hCcss : eC.css.getD [] = [c])
    (hbc : b ≠ c) :
    generate_css_files_of_asset s m (fl + 2) pA [] =
      .ok (cssTagOf s b :: cssTagOf s c :: (cssOwnFiles s (eA.css.getD []) [b, c]).1,
           (cssOwnFiles s (eA.css.getD []) [b, c]).2) := by
  have hwB : generate_css_files_of_asset s m (fl + 1) pB [] =
      .ok ([cssTagOf s b], [b]) := by
    rw [walk_succ_some s m fl pB [] eB hB, hBimp, hBcss]
    simp [cssImportsWalk, cssOwnFiles, cssTagOf]
  have hwC : generate_css_files_of_asset s m (fl + 1) pC [b] =
      .ok ([cssTagOf s c], [b, c]) := by
    rw [walk_succ_some s m fl pC [b] eC hC, hCimp, hCcss]
    simp [cssImportsWalk, cssOwnFiles, cssTagOf, Ne.symm hbc]
  rw [walk_succ_some s m (fl + 1) pA [] eA hA, hAimp]
  simp [cssImportsWalk, hwB, hwC]

/-- C3 witness at `mOrder`. -/
theorem c3_css_import_order_witness :
    generate_css_files_of_asset sProdSample mOrder 2 "A" [] =
      .ok (cssTagOf sProdSample "b.css" :: cssTagOf sProdSample "c.css" ::
            (cssOwnFiles sProdSample ["a.css"] ["b.css", "c.css"]).1,
           (cssOwnFiles sProdSample ["a.css"] ["b.css", "c.css"]).2) :=
  c3_css_import_order sProdSample mOrder 0 "A" "B" "C"
    { file := "a.js", imports := some ["B", "C"], css := some ["a.css"] }
    { file := "b.js", imports := none, css := some ["b.css"] }
    { file := "c.js", imports := none, css := some ["c.css"] }
    "b.css" "c.css" rfl rfl rfl rfl rfl rfl rfl rfl (by decide)

/-- C5 counterexample: the claim "when the path is present they do not
raise" fails for `generate_vite_asset`: in `mMissing` the requested entry
`A` is present but imports the missing key `B`, and the call fails with the
unguarded lookup error, not with `assetNotFound`. -/
theorem c5_present_path_raises_counterexample :
    (manifestLookup mMissing "A").isSome = true ∧
    generate_vite_asset sProdSample mMissing 5 "A" [] = .error (.keyError "B") :=
  ⟨rfl, rfl⟩

/-- C5 (amended): in ProductionMode each of the three operations fails with
`assetNotFound` exactly when the requested path is absent; when it is
present, `generate_vite_asset_url` returns only the production URL of the
entry output file and `generate_vite_legacy_asset` returns its script tag
(neither can fail), while `generate_vite_asset` never raises
`assetNotFound` but may still fail inside the CSS walk. -/
theorem c5_asset_not_found_iff (s : ViteSettings) (m : Manifest) (fuel : Nat)
    (path : String) (kwargs : List (String × String)) (hdev : s.devMode = false) :
    (generate_vite_asset s m fuel path kwargs = .error (.assetNotFound path) ↔
      manifestLookup m path = none) ∧
    (generate_vite_asset_url s m path = .error (.assetNotFound path) ↔
      manifestLookup m path = none) ∧
    (generate_vite_legacy_asset s m path kwargs = .error (.assetNotFound path) ↔
      manifestLookup m path = none) ∧
    (∀ e, manifestLookup m path = some e →
      generate_vite_asset_url s m path = .ok (generate_production_server_url s e.file) ∧
      generate_vite_legacy_asset s m path kwargs =
        .ok (generate_script_tag (generate_production_server_url s e.file)
          (dictMerge [("nomodule", ""), ("crossorigin", "")] kwargs)) ∧
      ∀ p', generate_vite_asset s m fuel path kwargs ≠ .error (.assetNotFound p')) := by
  cases hm : manifestLookup m path with
  | none =>
    refine ⟨?_, ?_, ?_, ?_⟩
    · simp [generate_vite_asset, hdev, hm]
    · simp [generate_vite_asset_url, hdev, hm]
    · simp [generate_vite_legacy_asset, hdev, hm]
    · intro e he
      cases he
  | some e0 =>
    have hne : ∀ p', generate_vite_asset s m fuel path kwargs ≠
        .error (.assetNotFound p') := by
      intro p' hc
      cases hwr : generate_css_files_of_asset s m fuel path [] with
      | error er =>
        rcases walk_errors s m fuel path [] er hwr with rfl | ⟨q, rfl⟩ <;>
          simp [generate_vite_asset, hdev, hm, hwr] at hc
      | ok v =>
        obtain ⟨cssTags, al⟩ := v
        simp [generate_vite_asset, hdev, hm, hwr] at hc
    refine ⟨?_, ?_, ?_, ?_⟩
    · exact ⟨fun hc => absurd hc (hne path), fun hc => by cases hc⟩
    · simp [generate_vite_asset_url, hdev, hm]
    · simp [generate_vite_legacy_asset, hdev, hm]
    · intro e he
      cases he
      refine ⟨?_, ?_, hne⟩
      · simp [generate_vite_asset_url, hdev, hm]
      · simp [generate_vite_legacy_asset, hdev, hm]

/-- C5 witness: missing entry in `mSample` makes `generate_vite_asset_url`
raise `assetNotFound`. -/
theorem c5_asset_not_found_iff_witness :
    generate_vite_asset_url sProdSample mSample "missing.js" =
      .error (.assetNotFound "missing.js") :=
  ((c5_asset_not_found_iff sProdSample mSample 3 "missing.js" [] rfl).2.1).mpr rfl

/-- C6: in DevMode the legacy asset and polyfill operations return the
empty string for every input; in ProductionMode the polyfill operation
returns the `nomodule, crossorigin` script tag of the first manifest entry
(in iteration order) whose key contains the configured motif, and fails
with `polyfillNotFound` when no key does. -/
theorem c6_legacy_polyfills_behavior (s : ViteSettings) (m : Manifest)
    (path : String) (kwargs : List (String × String)) :
    (s.devMode = true →
      generate_vite_legacy_asset s m path kwargs = .ok "" ∧
      generate_vite_legacy_polyfills s m kwargs = .ok "") ∧
    (s.devMode = false →
      generate_vite_legacy_polyfills s m kwargs =
        match m.find? (fun kv => strContains kv.1 s.legacyPolyfillsMotif) with
        | some kv => .ok (generate_script_tag (generate_production_server_url s kv.2.file)
            (dictMerge [("nomodule", ""), ("crossorigin", "")] kwargs))
        | none => .error .polyfillNotFound) := by
  constructor
  · intro hdev
    constructor
    · simp [generate_vite_legacy_asset, hdev]
    · simp [generate_vite_legacy_polyfills, hdev]
  · intro hdev
    rw [show generate_vite_legacy_polyfills s m kwargs = legacyPolyfillsScan s kwargs m from
      by simp [generate_vite_legacy_polyfills, hdev]]
    exact legacyPolyfillsScan_eq_find s kwargs m

/-- C6 witness: dev-mode no-ops on `mLegacy`; in production the scan finds
the `vite/legacy-polyfills` entry of `mLegacy`, and reports
`polyfillNotFound` on `mSample`, which has no matching key. -/
theorem c6_legacy_polyfills_behavior_witness :
    (generate_vite_legacy_asset sDevSample mLegacy "main-legacy.js" [] = .ok "" ∧
      generate_vite_legacy_polyfills sDevSample mLegacy [] = .ok "") ∧
    generate_vite_legacy_polyfills sProdSample mLegacy [] =
      .ok (generate_script_tag (generate_production_server_url sProdSample
        "assets/polyfills-legacy.js") (dictMerge [("nomodule", ""), ("crossorigin", "")] [])) ∧
    generate_vite_legacy_polyfills sProdSample mSample [] = .error .polyfillNotFound := by
  refine ⟨(c6_legacy_polyfills_behavior sDevSample mLegacy "main-legacy.js" []).1 rfl, ?_, ?_⟩
  · exact ((c6_legacy_polyfills_behavior sProdSample mLegacy "main-legacy.js" []).2 rfl).trans
      (by rfl)
  · exact ((c6_legacy_polyfills_behavior sProdSample mSample "main-legacy.js" []).2 rfl).trans
      (by rfl)

/-- C7 counterexample: the claim that after a failed production parse no
resolver — not even a partial one — is usable afterward fails on the code:
`instance()` caches `cls._instance` before `_parse_manifest`, so the first
call raises `manifestLoad`, but a second call returns the cached
partially-initialized loader with no manifest, without even retrying the
(now succeeding) read. -/
theorem c7_partial_loader_counterexample :
    (loaderInstance sProdSample (.error "manifest unreadable") none).1 =
      .error (.manifestLoad "manifest unreadable") ∧
    (loaderInstance sProdSample (.ok mSample)
        (loaderInstance sProdSample (.error "manifest unreadable") none).2).1 =
      .ok { manifest := none } :=
  ⟨rfl, rfl⟩

/-- C7 (amended): in ProductionMode, a call of `instance()` that actually
constructs (no cached singleton) succeeds exactly when reading and parsing
the manifest succeeds, the loader it returns carries the parsed manifest,
and a read or parse failure raises `manifestLoad` and returns no loader;
however the singleton is cached before parsing, so the failed call leaves a
partially-initialized loader (no manifest) cached, and every later call
returns the cached loader unchanged without reparsing. -/
theorem c7_manifest_load_caching (s : ViteSettings) (r : Except String Manifest)
    (hprod : s.devMode = false) :
    ((∃ L, (loaderInstance s r none).1 = .ok L) ↔ ∃ m, r = .ok m) ∧
    (∀ L, (loaderInstance s r none).1 = .ok L → ∃ m, r = .ok m ∧ L.manifest = some m) ∧
    (∀ msg, r = .error msg →
      (loaderInstance s r none).1 = .error (.manifestLoad msg) ∧
      (loaderInstance s r none).2 = some { manifest := none }) ∧
    (∀ (L : DjangoViteAssetLoader) (r' : Except String Manifest),
      (loaderInstance s r' (some L)).1 = .ok L ∧
      (loaderInstance s r' (some L)).2 = some L) := by
  cases r with
  | error msg =>
    refine ⟨?_, ?_, ?_, ?_⟩
    · constructor
      · rintro ⟨L, hL⟩
        simp [loaderInstance, hprod] at hL
      · rintro ⟨m, hm⟩
        cases hm
    · intro L hL
      simp [loaderInstance, hprod] at hL
    · intro msg' hmsg
      cases hmsg
      constructor
      · simp [loaderInstance, hprod]
      · simp [loaderInstance, hprod]
    · intro L r'
      exact ⟨rfl, rfl⟩
  | ok m =>
    refine ⟨?_, ?_, ?_, ?_⟩
    · exact ⟨fun _ => ⟨m, rfl⟩,
        fun _ => ⟨{ manifest := some m }, by simp [loaderInstance, hprod]⟩⟩
    · intro L hL
      simp only [loaderInstance, hprod, Bool.false_eq_true, if_false] at hL
      cases hL
      exact ⟨m, rfl, rfl⟩
    · intro msg hmsg
      cases hmsg
    · intro L r'
      exact ⟨rfl, rfl⟩

/-- C7 witness: a failed read raises and caches the partial loader; the
next call returns it. -/
theorem c7_manifest_load_caching_witness :
    ((loaderInstance sProdSample (.error "boom") none).1 =
      .error (.manifestLoad "boom") ∧
    (loaderInstance sProdSample (.error "boom") none).2 =
      some { manifest := none }) ∧
    (loaderInstance sProdSample (.ok mSample)
        (some ({ manifest := none } : DjangoViteAssetLoader))).1 =
      .ok { manifest := none } :=
  ⟨(c7_manifest_load_caching sProdSample (.error "boom") rfl).2.2.1 "boom" rfl,
   ((c7_manifest_load_caching sProdSample (.error "boom") rfl).2.2.2
     { manifest := none } (.ok mSample)).1⟩

/-- C8: each resolve operation, run as a method call on the loader object,
leaves the loader unchanged (the source methods assign no attribute; the
CSS already-processed list is created fresh inside each call), so a second
call with the same arguments returns the identical result. -/
theorem c8_resolve_idempotent (s : ViteSettings) (L : DjangoViteAssetLoader)
    (fuel : Nat) (path : String) (kwargs : List (String × String)) :
    ((loaderViteAsset s L fuel path kwargs).2 = L ∧
      (loaderViteAsset s (loaderViteAsset s L fuel path kwargs).2 fuel path kwargs).1 =
        (loaderViteAsset s L fuel path kwargs).1) ∧
    ((loaderViteAssetUrl s L path).2 = L ∧
      (loaderViteAssetUrl s (loaderViteAssetUrl s L path).2 path).1 =
        (loaderViteAssetUrl s L path).1) ∧
    ((loaderLegacyPolyfills s L kwargs).2 = L ∧
      (loaderLegacyPolyfills s (loaderLegacyPolyfills s L kwargs).2 kwargs).1 =
        (loaderLegacyPolyfills s L kwargs).1) ∧
    ((loaderLegacyAsset s L path kwargs).2 = L ∧
      (loaderLegacyAsset s (loaderLegacyAsset s L path kwargs).2 path kwargs).1 =
        (loaderLegacyAsset s L path kwargs).1) :=
  ⟨⟨rfl, rfl⟩, ⟨rfl, rfl⟩, ⟨rfl, rfl⟩, ⟨rfl, rfl⟩⟩

theorem importRel_mMissing (a b : String) (h : importRel mMissing a b) :
    a = "A" ∧ b = "B" := by
  obtain ⟨e, he, hb⟩ := h
  simp only [mMissing, manifestLookup] at he
  split at he
  · rename_i h1
    cases he
    exact ⟨h1.symm, by simpa using hb⟩
  · cases he

theorem acyclic_mMissing : Acyclic mMissing := by
  intro x hx
  obtain ⟨c, hxc, hcx⟩ := Relation.TransGen.head'_iff.mp hx
  obtain ⟨hxA, hcB⟩ := importRel_mMissing x c hxc
  subst hxA
  subst hcB
  rcases Relation.ReflTransGen.cases_head hcx with h1 | ⟨d, hd, _⟩
  · exact absurd h1 (by decide)
  · exact absurd (importRel_mMissing "B" d hd).1 (by decide)

theorem importRel_mCycleFirst (a b : String) (h : importRel mCycleFirst a b) :
    (a = "A" ∧ (b = "L" ∨ b = "M")) ∨ (a = "L" ∧ b = "L") := by
  obtain ⟨e, he, hb⟩ := h
  simp only [mCycleFirst, manifestLookup] at he
  split at he
  · rename_i h1
    cases he
    exact Or.inl ⟨h1.symm, by simpa using hb⟩
  · split at he
    · rename_i h2
      cases he
      exact Or.inr ⟨h2.symm, by simpa using hb⟩
    · cases he

theorem mCycleFirst_reach_L (q : String)
    (h : Relation.ReflTransGen (importRel mCycleFirst) "L" q) : q = "L" := by
  induction h with
  | refl => rfl
  | tail hab hbc ih =>
    subst ih
    rcases importRel_mCycleFirst _ _ hbc with ⟨h1, _⟩ | ⟨_, h2⟩
    · exact absurd h1 (by decide)
    · exact h2

theorem closedFrom_mCycleFirst_L : ClosedFrom mCycleFirst "L" := by
  intro q hq
  rw [mCycleFirst_reach_L q hq]
  exact ⟨{ file := "l.js", imports := some ["L"], css := none }, rfl⟩

theorem reachesCycle_mCycleFirst_L : ReachesCycle mCycleFirst "L" :=
  ⟨"L", Relation.ReflTransGen.refl,
    Relation.TransGen.single
      ⟨{ file := "l.js", imports := some ["L"], css := none }, rfl, by simp⟩⟩

theorem closed_mSample : ∀ k ek, manifestLookup mSample k = some ek →
    ∀ q ∈ ek.imports.getD [], ∃ e', manifestLookup mSample q = some e' := by
  intro k ek he q hq
  simp only [mSample, manifestLookup] at he
  split at he
  · cases he
    have hq' : q = "shared.js" := by simpa using hq
    subst hq'
    exact ⟨_, rfl⟩
  · split at he
    · cases he
      simp at hq
    · cases he

/-- C9 counterexample: the claim "for a manifest containing an import cycle
reachable from the requested entry, the recursion does not terminate" fails
on `mMissingFirst`: the cycle at `L` is reachable from `A`, but the
missing import `M` is listed first, so the recursion terminates with the unguarded
lookup error before ever entering the cycle. -/
theorem c9_reachable_cycle_terminates_counterexample :
    importRel mMissingFirst "A" "L" ∧
    Relation.TransGen (importRel mMissingFirst) "L" "L" ∧
    generate_css_files_of_asset sProdSample mMissingFirst 3 "A" [] =
      .error (.keyError "M") ∧
    generate_vite_asset sProdSample mMissingFirst 100 "A" [] = .error (.keyError "M") :=
  ⟨⟨{ file := "a.js", imports := some ["M", "L"], css := none }, rfl, by simp⟩,
   Relation.TransGen.single
     ⟨{ file := "l.js", imports := some ["L"], css := none }, rfl, by simp⟩,
   rfl, rfl⟩

/-- C9 (amended): for an acyclic imports relation the CSS walk (and
`generate_vite_asset`) terminates — some fuel suffices, for every starting
path and accumulator; conversely, when every entry reachable from the
requested path is a manifest key and a cycle is reachable from it, the walk
exhausts every fuel (the recursion does not terminate), and so does
`generate_vite_asset`. -/
theorem c9_termination (s : ViteSettings) (m : Manifest) (path : String)
    (kwargs : List (String × String)) (hprod : s.devMode = false) :
    (Acyclic m →
      (∀ p, ∃ fuel, ∀ al,
        generate_css_files_of_asset s m fuel p al ≠ .error .outOfFuel) ∧
      ∃ fuel, generate_vite_asset s m fuel path kwargs ≠ .error .outOfFuel) ∧
    (ClosedFrom m path → ReachesCycle m path →
      (∀ fuel al, generate_css_files_of_asset s m fuel path al = .error .outOfFuel) ∧
      ∀ fuel, generate_vite_asset s m fuel path kwargs = .error .outOfFuel) := by
  constructor
  · intro hacyc
    have hterm := walk_terminates s m hacyc
    refine ⟨hterm, ?_⟩
    cases hm : manifestLookup m path with
    | none =>
      refine ⟨0, ?_⟩
      simp [generate_vite_asset, hprod, hm]
    | some e =>
      obtain ⟨fuel, hf⟩ := hterm path
      refine ⟨fuel, ?_⟩
      intro hc
      cases hwr : generate_css_files_of_asset s m fuel path [] with
      | error er =>
        simp [generate_vite_asset, hprod, hm, hwr] at hc
        exact hf [] (by rw [hwr, hc])
      | ok v =>
        obtain ⟨t, a⟩ := v
        simp [generate_vite_asset, hprod, hm, hwr] at hc
  · intro hcl hrc
    refine ⟨fun fuel al => walk_nonterm s m fuel path hcl hrc al, ?_⟩
    intro fuel
    obtain ⟨e, hm⟩ := hcl path Relation.ReflTransGen.refl
    simp [generate_vite_asset, hprod, hm, walk_nonterm s m fuel path hcl hrc []]

/-- C9 witness: the acyclic part at `mMissing` (its only edge is
`A -> B` and `B` has none), the nontermination part at the self-loop of
`mCycleFirst`. -/
theorem c9_termination_witness :
    (∃ fuel, generate_vite_asset sProdSample mMissing fuel "A" [] ≠ .error .outOfFuel) ∧
    generate_css_files_of_asset sProdSample mCycleFirst 7 "L" [] = .error .outOfFuel ∧
    generate_vite_asset sProdSample mCycleFirst 9 "L" [] = .error .outOfFuel := by
  refine ⟨((c9_termination sProdSample mMissing "A" [] rfl).1 acyclic_mMissing).2, ?_, ?_⟩
  · exact ((c9_termination sProdSample mCycleFirst "L" [] rfl).2
      closedFrom_mCycleFirst_L reachesCycle_mCycleFirst_L).1 7 []
  · exact ((c9_termination sProdSample mCycleFirst "L" [] rfl).2
      closedFrom_mCycleFirst_L reachesCycle_mCycleFirst_L).2 9

/-- C10 counterexample: the claim "for every manifest in which some entry
reachable from the requested entry names a missing import, the call fails
with an unguarded lookup error" fails on `mCycleFirst`: `M` is reachable
from `A` and missing, but the self-loop at `L` is walked first, so no
`keyError` is ever produced (the recursion exhausts every fuel instead). -/
theorem c10_missing_import_counterexample :
    (manifestLookup mCycleFirst "A").isSome = true ∧
    Relation.TransGen (importRel mCycleFirst) "A" "M" ∧
    manifestLookup mCycleFirst "M" = none ∧
    ¬ ∃ fuel bq, generate_vite_asset sProdSample mCycleFirst fuel "A" [] =
      .error (.keyError bq) := by
  refine ⟨rfl,
    Relation.TransGen.single
      ⟨{ file := "a.js", imports := some ["L", "M"], css := none }, rfl, by simp⟩,
    rfl, ?_⟩
  rintro ⟨fuel, bq, hc⟩
  have hL : ∀ f al, generate_css_files_of_asset sProdSample mCycleFirst f "L" al =
      .error .outOfFuel :=
    fun f al => walk_nonterm sProdSample mCycleFirst f "L"
      closedFrom_mCycleFirst_L reachesCycle_mCycleFirst_L al
  have hwA : generate_css_files_of_asset sProdSample mCycleFirst fuel "A" [] =
      .error .outOfFuel := by
    cases fuel with
    | zero => rfl
    | succ f' =>
      rw [walk_succ_some sProdSample mCycleFirst f' "A" []
        { file := "a.js", imports := some ["L", "M"], css := none } rfl]
      simp [cssImportsWalk, hL f' []]
  have hgva : generate_vite_asset sProdSample mCycleFirst fuel "A" [] =
      match generate_css_files_of_asset sProdSample mCycleFirst fuel "A" [] with
      | .error er => .error er
      | .ok (cssTags, _) =>
        .ok (String.intercalate "\n" (cssTags ++
          [generate_script_tag (generate_production_server_url sProdSample "a.js")
            (dictMerge [("type", "module"), ("crossorigin", "")] [])])) := rfl
  rw [hgva, hwA] at hc
  simp at hc

/-- C10 (amended): in ProductionMode, for an acyclic imports relation, a
present requested entry and a missing transitively-imported path make
`generate_vite_asset` fail with the unguarded lookup error `keyError` (a
kind distinct from the three documented errors); and under the precondition
that every listed import of every entry is a manifest key, the CSS walk of
a present path never produces a `keyError`. -/
theorem c10_unguarded_lookup (s : ViteSettings) (m : Manifest) (path : String)
    (kwargs : List (String × String)) (hprod : s.devMode = false) :
    (Acyclic m → (∃ e, manifestLookup m path = some e) →
      (∃ q, Relation.TransGen (importRel m) path q ∧ manifestLookup m q = none) →
      ∃ fuel bq, generate_vite_asset s m fuel path kwargs = .error (.keyError bq)) ∧
    ((∀ k ek, manifestLookup m k = some ek →
        ∀ q ∈ ek.imports.getD [], ∃ e', manifestLookup m q = some e') →
      (∃ e, manifestLookup m path = some e) →
      ∀ fuel al bq, generate_css_files_of_asset s m fuel path al ≠ .error (.keyError bq)) := by
  constructor
  · rintro hacyc ⟨e, hm⟩ ⟨q, hq, hqnone⟩
    obtain ⟨fuel, hf⟩ := walk_terminates s m hacyc path
    cases hwr : generate_css_files_of_asset s m fuel path [] with
    | ok v =>
      obtain ⟨e', he'⟩ := walk_ok_reachable s m fuel path [] v hwr q hq
      rw [hqnone] at he'
      cases he'
    | error er =>
      rcases walk_errors s m fuel path [] er hwr with rfl | ⟨bq, rfl⟩
      · exact absurd hwr (hf [])
      · exact ⟨fuel, bq, by simp [generate_vite_asset, hprod, hm, hwr]⟩
  · rintro hclosed ⟨e, hm⟩
    have hcf : ClosedFrom m path := by
      intro q hq
      induction hq with
      | refl => exact ⟨e, hm⟩
      | tail hab hbc ih =>
        obtain ⟨eb', heb', hmem⟩ := hbc
        exact hclosed _ eb' heb' _ hmem
    exact fun fuel al bq => walk_no_keyError s m fuel path hcf al bq

/-- C10 witness: the missing transitive import of `mMissing` produces the
unguarded lookup error; on the closed manifest `mSample` the walk never
produces one. -/
theorem c10_unguarded_lookup_witness :
    (∃ fuel bq, generate_vite_asset sProdSample mMissing fuel "A" [] =
      .error (.keyError bq)) ∧
    ¬ ∃ bq, generate_css_files_of_asset sProdSample mSample 5 "main.js" [] =
      .error (.keyError bq) := by
  constructor
  · exact (c10_unguarded_lookup sProdSample mMissing "A" [] rfl).1 acyclic_mMissing
      ⟨{ file := "a.js", imports := some ["B"], css := none }, rfl⟩
      ⟨"B", Relation.TransGen.single
        ⟨{ file := "a.js", imports := some ["B"], css := none }, rfl, by simp⟩, rfl⟩
  · rintro ⟨bq, hc⟩
    exact (c10_unguarded_lookup sProdSample mSample "main.js" [] rfl).2 closed_mSample
      ⟨{ file := "assets/main-abc.js", imports := some ["shared.js"],
         css := some ["assets/main.css"] }, rfl⟩ 5 [] bq hc

end DjangoVite
